import Mathlib

/-!
Verification of the image-downloader script (src/week6.py) against its
specification. The program is shallowly embedded over `List Char` strings:
pure Python string operations become Lean functions, the filesystem becomes
an association list from paths to byte lists, the single HTTP request and the
console answers become explicit inputs, and the current timestamp is passed
as an explicit argument. All definitions are executable.

Modelling notes:
  - Strings are sequences of Unicode code points (`List Char`), matching
    Python `str`.
  - The regex class `\w` of `re.sub` (with the default Unicode semantics for
    `str` patterns) is modelled exactly for code points below 0x100: ASCII
    alphanumerics, the underscore, and the Latin-1 alphanumerics. Code points
    at or above 0x100 are treated as word characters; no theorem below
    depends on the classification of those code points.
  - `urllib.parse.urlparse` path extraction follows CPython (scheme, netloc,
    fragment, query and params splitting, and removal of tab, CR and LF).
    URLs containing other ASCII control characters and bracketed IPv6 hosts
    are outside the modelled domain; no claim concerns them.
  - `str.lower` and `str.strip` are modelled on ASCII (identity beyond);
    every input they ever receive in the claims is ASCII.
  - The reference platform is POSIX: `os.path` uses the separator `/`.
-/

namespace Week6

/-- Python strings are sequences of Unicode code points. -/
abbrev Str := List Char

/-- ASCII letters, `[A-Za-z]`. -/
def isAsciiAlpha (c : Char) : Bool :=
  (65 ≤ c.toNat && c.toNat ≤ 90) || (97 ≤ c.toNat && c.toNat ≤ 122)

/-- ASCII digits, `[0-9]`. -/
def isAsciiDigit (c : Char) : Bool :=
  48 ≤ c.toNat && c.toNat ≤ 57

/-- ASCII alphanumerics. -/
def isAsciiAlnum (c : Char) : Bool :=
  isAsciiAlpha c || isAsciiDigit c

/-- Unicode alphanumerics of the Latin-1 range 0x80 to 0xFF: the feminine
and masculine ordinal indicators, superscript digits, micro sign, vulgar
fractions, and the accented letters (excluding multiplication and division
signs). These are exactly the code points of that range matched by the
Python regex class `\w`. -/
def isLatin1Alnum (c : Char) : Bool :=
  c.toNat = 0xAA || c.toNat = 0xB2 || c.toNat = 0xB3 || c.toNat = 0xB5 ||
  c.toNat = 0xB9 || c.toNat = 0xBA ||
  (0xBC ≤ c.toNat && c.toNat ≤ 0xBE) ||
  (0xC0 ≤ c.toNat && c.toNat ≤ 0xD6) ||
  (0xD8 ≤ c.toNat && c.toNat ≤ 0xF6) ||
  (0xF8 ≤ c.toNat && c.toNat ≤ 0xFF)

/-- The Python regex class `\w` for `str` patterns: underscore (code point
95) plus Unicode alphanumerics. Exact for code points below 0x100; larger
code points are uniformly treated as word characters (see the module
comment). -/
def isPyWordChar (c : Char) : Bool :=
  isAsciiAlnum c || c.toNat = 95 || isLatin1Alnum c || 0x100 ≤ c.toNat

/-- Characters kept by `re.sub(r'[^\w\-_.]', '_', filename)` at
src/week6.py:45: the complement of the substituted class, that is `\w`,
the hyphen (45), the underscore and the period (46). -/
def keepChar (c : Char) : Bool :=
  isPyWordChar c || c.toNat = 45 || c.toNat = 46

/-- The substitution `re.sub(r'[^\w\-_.]', '_', filename)` of
src/week6.py:45: every character outside `keepChar` becomes an
underscore. -/
def pySanitize (s : Str) : Str :=
  s.map (fun c => if keepChar c then c else '_')

/-- The character set `[A-Za-z0-9_.-]` named by the specification sentence
about sanitization: ASCII letters and digits, underscore (95), period (46)
and hyphen (45). This definition follows the words of the specification,
for comparison with the class the source actually uses. -/
def specAllowedChar (c : Char) : Bool :=
  isAsciiAlpha c || isAsciiDigit c || c.toNat = 95 || c.toNat = 46 || c.toNat = 45

/-- Python `str.lower` on one character, modelled on ASCII. -/
def lowerCh (c : Char) : Char :=
  if 65 ≤ c.toNat ∧ c.toNat ≤ 90 then Char.ofNat (c.toNat + 32) else c

/-- Python `str.lower`, modelled on ASCII. -/
def pyLower (s : Str) : Str := s.map lowerCh

/-- ASCII whitespace as stripped by Python `str.strip()`. -/
def isPySpace (c : Char) : Bool :=
  c = ' ' || c = '\t' || c = '\n' || c = '\r' || c.toNat = 11 || c.toNat = 12

/-- Python `str.strip()` with no argument, modelled on ASCII whitespace. -/
def pyStrip (s : Str) : Str :=
  ((s.dropWhile isPySpace).reverse.dropWhile isPySpace).reverse

/-- Python `s.split(sep)[0]` for a one-character separator: the prefix of
`s` before the first occurrence of `sep` (all of `s` if absent). -/
def splitBeforeChar (sep : Char) (s : Str) : Str :=
  s.takeWhile (fun c => c != sep)

/-- Python `s.split(sep)[-1]` for a one-character separator: the suffix of
`s` after the last occurrence of `sep` (all of `s` if absent). Also
`posixpath.basename` when `sep` is the slash. -/
def afterLastChar (sep : Char) (s : Str) : Str :=
  (s.reverse.takeWhile (fun c => c != sep)).reverse

/-- The prefix of `s` up to and including the last occurrence of `sep`
(empty if absent); the complement of `afterLastChar`. -/
def upToLastChar (sep : Char) (s : Str) : Str :=
  (s.reverse.dropWhile (fun c => c != sep)).reverse

/-- Python `p.startswith(q)`. -/
def pyStartswith (q s : Str) : Bool :=
  decide (s.take q.length = q)

/-! ### urlparse path extraction (urllib.parse, CPython) -/

/-- Characters allowed after the first character of a URL scheme. -/
def isSchemeChar (c : Char) : Bool :=
  isAsciiAlnum c || c = '+' || c = '-' || c = '.'

/-- Whether a candidate scheme (the text before the first colon) is valid:
nonempty, an ASCII letter first, scheme characters after. -/
def validScheme : Str → Bool
  | [] => false
  | c :: rest => isAsciiAlpha c && rest.all isSchemeChar

/-- Removal of the scheme prefix by `urlsplit`: when a colon is present and
the text before it is a valid scheme, everything up to and including the
colon is dropped. -/
def splitScheme (s : Str) : Str :=
  let pre := s.takeWhile (fun c => c != ':')
  if pre.length < s.length ∧ validScheme pre = true
  then s.drop (pre.length + 1) else s

/-- Removal of the network-location prefix by `urlsplit`: when the remainder
starts with two slashes, the netloc extends to the next `/`, `?` or `#`
(or the end), and is dropped together with the two leading slashes. -/
def splitNetloc (s : Str) : Str :=
  if s.take 2 = ['/', '/'] then
    (s.drop 2).dropWhile (fun c => c != '/' && c != '?' && c != '#')
  else s

/-- The params split of `urlparse` (`_splitparams`): when the path contains
a slash, a semicolon at or after the last slash starts the params; when it
contains no slash, the first semicolon does. The params (and the semicolon)
are removed from the path. -/
def splitParams (s : Str) : Str :=
  if s.contains '/' then
    if (afterLastChar '/' s).contains ';' then
      upToLastChar '/' s ++ splitBeforeChar ';' (afterLastChar '/' s)
    else s
  else
    if s.contains ';' then splitBeforeChar ';' s else s

/-- The `path` attribute of `urllib.parse.urlparse(url)`: tab, CR and LF
are removed, then the scheme, the netloc, the fragment (from the first `#`),
the query (from the first `?`) and the params are split off. -/
def urlPath (url : Str) : Str :=
  let u1 := url.filter (fun c => c != '\t' && c != '\r' && c != '\n')
  let u2 := splitScheme u1
  let u3 := splitNetloc u2
  let u4 := u3.takeWhile (fun c => c != '#')
  let u5 := u4.takeWhile (fun c => c != '?')
  splitParams u5

/-! ### The filename resolver, get_valid_filename (src/week6.py:19-47) -/

/-- The extension synthesized from the content type in the fallback branch
(src/week6.py:28-33): the text after the last slash, cut at the first
semicolon and stripped, or `bin` when the content type is empty or has no
slash. -/
def extensionFromContentType (ct : Str) : Str :=
  if ct ≠ [] ∧ ct.contains '/' = true then
    pyStrip (splitBeforeChar ';' (afterLastChar '/' ct))
  else
    "bin".data

/-- The synthesized fallback filename `image_<timestamp>.<extension>`
(src/week6.py:38). The timestamp string is an explicit argument standing
for `datetime.now().strftime("%Y%m%d_%H%M%S")`. -/
def fallbackName (now ext : Str) : Str :=
  "image_".data ++ now ++ '.' :: ext

/-- The filename computed by `get_valid_filename` before the final
sanitization step: the last segment of the URL path, replaced by the
synthesized fallback when empty, period-free or longer than 100 characters,
and then cut at the first `?` (src/week6.py:22-41). -/
def preSanitized (now url ct : Str) : Str :=
  let candidate := afterLastChar '/' (urlPath url)
  let filename :=
    if candidate = [] ∨ '.' ∉ candidate ∨ 100 < candidate.length
    then fallbackName now (extensionFromContentType ct)
    else candidate
  splitBeforeChar '?' filename

/-- The function `get_valid_filename(url, content_type)` of
src/week6.py:19-47, with the timestamp passed explicitly. -/
def get_valid_filename (now url ct : Str) : Str :=
  pySanitize (preSanitized now url ct)

/-! ### os.path pieces (posixpath): splitext and join -/

/-- The index of the last occurrence of a character (Python `s.rfind(c)`,
with `none` for absence). -/
def rfind? (c : Char) : Str → Option Nat
  | [] => none
  | x :: xs =>
    match rfind? c xs with
    | some i => some (i + 1)
    | none => if x = c then some 0 else none

/-- `posixpath.splitext`: the path splits at the last period when that
period lies after the last slash and the basename does not consist of
leading periods only; otherwise the extension is empty. -/
def splitext (p : Str) : Str × Str :=
  match rfind? '.' p with
  | none => (p, [])
  | some d =>
    let s := match rfind? '/' p with | none => 0 | some i => i + 1
    if s ≤ d ∧ ((p.drop s).take (d - s)).all (fun c => decide (c = '.')) = false
    then (p.take d, p.drop d)
    else (p, [])

/-- `posixpath.join` for two components: the second wins when absolute,
and a separator is inserted unless the first is empty or already ends in
one. -/
def pyJoin (a b : Str) : Str :=
  if b.take 1 = ['/'] then b
  else if a = [] ∨ a.getLast? = some '/' then a ++ b
  else a ++ '/' :: b

/-! ### Decimal rendering of the collision counter -/

/-- The decimal digit characters. The final catch-all renders 9; the
function is only ever applied to remainders modulo ten. -/
def digitCh : Nat → Char
  | 0 => '0' | 1 => '1' | 2 => '2' | 3 => '3' | 4 => '4'
  | 5 => '5' | 6 => '6' | 7 => '7' | 8 => '8' | _ => '9'

/-- Digit accumulation for `natChars`, with fuel bounding the number of
divisions (the starting number itself is always enough). -/
def natCharsAux : Nat → Nat → Str → Str
  | 0, _, acc => acc
  | _ + 1, 0, acc => acc
  | fuel + 1, n + 1, acc =>
    natCharsAux fuel ((n + 1) / 10) (digitCh ((n + 1) % 10) :: acc)

/-- Python `str(n)` for a natural number: standard decimal notation. -/
def natChars (n : Nat) : Str :=
  if n = 0 then ['0'] else natCharsAux n n []

/-! ### The filesystem and the collision loop (src/week6.py:79-85) -/

/-- The directory contents: an association of paths to byte contents
(bytes as natural numbers; no claim depends on a bound). A new entry
shadows an older one with the same path. -/
abbrev FS := List (Str × List Nat)

/-- `os.path.exists` restricted to the modelled directory. -/
def fsHas (fs : FS) (p : Str) : Bool :=
  fs.any (fun e => decide (e.1 = p))

/-- The collision candidate `f"{name}_{counter}{ext}"` built at
src/week6.py:83-84, where `name, ext = os.path.splitext(original_filepath)`. -/
def candPath (orig : Str) (k : Nat) : Str :=
  (splitext orig).1 ++ '_' :: (natChars k ++ (splitext orig).2)

/-- The while loop of src/week6.py:82-85 with explicit fuel: while the
current path exists, the candidate with the current counter replaces it and
the counter increments. The fuel bounds the iterations;
`resolveCollision` supplies a bound sufficient for any directory. -/
def collideAux : Nat → FS → Str → Nat → Str → Str
  | 0, _, _, _, fp => fp
  | fuel + 1, fs, orig, counter, fp =>
    if fsHas fs fp then collideAux fuel fs orig (counter + 1) (candPath orig counter)
    else fp

/-- The filepath after collision resolution: the loop starting from the
joined path with the counter at 1. -/
def resolveCollision (fs : FS) (orig : Str) : Str :=
  collideAux (fs.length + 1) fs orig 1 orig

/-! ### Streaming write (src/week6.py:89-99) -/

/-- `response.iter_content(chunk_size=n)`: the body cut into successive
pieces of `n` bytes, the last possibly shorter. Fuel equal to the body
length bounds the recursion. -/
def chunksAux : Nat → Nat → List Nat → List (List Nat)
  | 0, _, _ => []
  | _ + 1, _, [] => []
  | fuel + 1, n, x :: xs => (x :: xs).take n :: chunksAux fuel n ((x :: xs).drop n)

/-- The chunk sequence of a body for a given chunk size. -/
def chunks (n : Nat) (body : List Nat) : List (List Nat) :=
  chunksAux body.length n body

/-- The chunk size of the `iter_content` call at src/week6.py:93. -/
def chunkSize : Nat := 8192

/-- The bytes written by the loop at src/week6.py:93-95: every chunk that
is truthy (nonempty), concatenated. -/
def writtenContent (body : List Nat) : List Nat :=
  ((chunks chunkSize body).filter (fun c => !c.isEmpty)).flatten

/-- File-opening modes relevant here: `wb` truncates and succeeds whether or
not the path exists; `xb` (exclusive create) fails when it exists. -/
inductive OpenMode
  | wb
  | xb
  deriving DecidableEq

/-- Opening a path for writing under a mode, returning the directory with
the new (empty) entry, or `none` when the mode refuses. -/
def openForWrite (m : OpenMode) (fs : FS) (p : Str) : Option FS :=
  match m with
  | .wb => some ((p, []) :: fs)
  | .xb => if fsHas fs p then none else some ((p, []) :: fs)

/-- The mode of the `open(filepath, 'wb')` call at src/week6.py:92. -/
def downloadOpenMode : OpenMode := .wb

/-! ### Error taxonomy and messages (src/week6.py:107-122) -/

/-- The seven except clauses of `download_image`, in source order. -/
inductive ErrKind
  | timeout
  | connectionError
  | httpStatus
  | redirects
  | requestFailure
  | localFile
  | unexpected
  deriving DecidableEq

/-- The fixed text of each error message; for the four kinds that embed the
exception text, this is the prefix before it. -/
def errPrefix : ErrKind → Str
  | .timeout => "Error: Connection timed out. The server took too long to respond.".data
  | .connectionError => "Error: Connection failed. Check your internet connection or the URL.".data
  | .httpStatus => "Error: HTTP error occurred - ".data
  | .redirects => "Error: Too many redirects. The URL might be broken.".data
  | .requestFailure => "Error: Failed to download image - ".data
  | .localFile => "Error: Failed to save file - ".data
  | .unexpected => "Unexpected error: ".data

/-- Whether the message of a kind embeds the exception text. -/
def errHasPayload : ErrKind → Bool
  | .httpStatus => true
  | .requestFailure => true
  | .localFile => true
  | .unexpected => true
  | _ => false

/-- The message printed for an error of a given kind carrying the given
exception text. -/
def errMsg (k : ErrKind) (e : Str) : Str :=
  errPrefix k ++ (if errHasPayload k then e else [])

/-! ### The fetcher, download_image (src/week6.py:50-122) -/

/-- The response delivered by `requests.get` when no transport error is
raised: the status code, the text an `HTTPError` raised by
`raise_for_status` would carry, the raw `content-type` header (empty when
absent), and the body bytes. -/
structure HttpResponse where
  statusCode : Nat
  httpErrorText : Str
  contentTypeHeader : Str
  body : List Nat

/-- The outcome of the single `requests.get` call: one of the transport
errors caught at src/week6.py:107-116, an arbitrary non-requests exception
(caught by the catch-all at line 119), or a response. -/
inductive NetOutcome
  | timeout
  | connectionError
  | tooManyRedirects
  | otherRequestError (e : Str)
  | unexpectedExc (e : Str)
  | ok (r : HttpResponse)

/-- The ambient inputs of one download attempt: the request outcome, the
console answer to the continue prompt, the timestamp for the fallback
filename, and the text of an `IOError` raised while saving (`none` for a
clean save). -/
structure Attempt where
  net : NetOutcome
  userAnswer : Str
  now : Str
  writeFault : Option Str

/-- What one call of `download_image` produces: the returned value (`None`
on every error path), the directory afterwards, and the lines printed
(progress lines and the prompt text omitted). -/
structure DlOutcome where
  result : Option Str
  fs : FS
  log : List Str

/-- The line `Connecting to: <url>` of src/week6.py:53. -/
def connectingMsg (url : Str) : Str := "Connecting to: ".data ++ url

/-- An apostrophe, written by code point. -/
def squote : Char := Char.ofNat 39

/-- The warning of src/week6.py:69 for a content type outside `image/`. -/
def warningMsg (ct : Str) : Str :=
  "Warning: Content-Type is ".data ++ squote :: (ct ++ squote :: " - may not be an image".data)

/-- The line of src/week6.py:72. -/
def cancelledMsg : Str := "Download cancelled by user.".data

/-- The line of src/week6.py:88. -/
def downloadingMsg (fp : Str) : Str := "Downloading to: ".data ++ fp

/-- The line of src/week6.py:101. -/
def completedMsg : Str := "\nDownload completed successfully!".data

/-- The line of src/week6.py:102. -/
def savedAsMsg (fp : Str) : Str := "Saved as: ".data ++ afterLastChar '/' fp

/-- The line of src/week6.py:103 (the thousands grouping of the Python
format is not rendered; no claim concerns this line). -/
def fileSizeMsg (n : Nat) : Str :=
  "File size: ".data ++ natChars n ++ " bytes".data

/-- The function `download_image(url, download_dir)` of src/week6.py:50-122.
Every except clause returns `None`; the content type is lowercased before
the `image/` check; a declined confirmation aborts with no write; otherwise
the filename is resolved, the collision loop picks the path, and the body is
written there. An I/O failure is modelled at the opening of the file; no
claim distinguishes a partially written file. -/
def download_image (url dir : Str) (a : Attempt) (fs : FS) : DlOutcome :=
  match a.net with
  | .timeout => ⟨none, fs, [connectingMsg url, errMsg .timeout []]⟩
  | .connectionError => ⟨none, fs, [connectingMsg url, errMsg .connectionError []]⟩
  | .tooManyRedirects => ⟨none, fs, [connectingMsg url, errMsg .redirects []]⟩
  | .otherRequestError e => ⟨none, fs, [connectingMsg url, errMsg .requestFailure e]⟩
  | .unexpectedExc e => ⟨none, fs, [connectingMsg url, errMsg .unexpected e]⟩
  | .ok r =>
    if 400 ≤ r.statusCode ∧ r.statusCode < 600 then
      ⟨none, fs, [connectingMsg url, errMsg .httpStatus r.httpErrorText]⟩
    else
      let ct := pyLower r.contentTypeHeader
      if pyStartswith "image/".data ct = false ∧ pyLower a.userAnswer ≠ "y".data then
        ⟨none, fs, [connectingMsg url, warningMsg ct, cancelledMsg]⟩
      else
        let warnLog := if pyStartswith "image/".data ct = false then [warningMsg ct] else []
        let filename := get_valid_filename a.now url ct
        let filepath := resolveCollision fs (pyJoin dir filename)
        match a.writeFault with
        | some e =>
          ⟨none, fs, connectingMsg url :: warnLog ++ [downloadingMsg filepath, errMsg .localFile e]⟩
        | none =>
          ⟨some filepath, (filepath, writtenContent r.body) :: fs,
            connectingMsg url :: warnLog ++
              [downloadingMsg filepath, completedMsg, savedAsMsg filepath,
               fileSizeMsg (writtenContent r.body).length]⟩

/-! ### The interactive loop (src/week6.py:140-164) -/

/-- The two states of the interactive loop. -/
inductive LoopState
  | prompting
  | terminated
  deriving DecidableEq

/-- The quit words accepted at the URL prompt (src/week6.py:144). -/
def quitWords : List Str := ["quit".data, "exit".data, "q".data]

/-- One iteration of the loop of src/week6.py:140-164: the raw line typed
at the URL prompt, the result of the download attempt (reached only when
the line neither quits nor is blank), and the answer to the continue
prompt. Returns the next state and the lines printed. -/
def mainStep (rawUrl : Str) (result : Option Str) (continueAnswer : Str) :
    LoopState × List Str :=
  let url := pyStrip rawUrl
  if pyLower url ∈ quitWords then (.terminated, ["Goodbye!".data])
  else if url = [] then (.prompting, ["Please enter a valid URL.".data])
  else
    let line := match result with
      | some _ => "✓ Download successful!".data
      | none => "✗ Download failed.".data
    if pyLower continueAnswer = "y".data then (.prompting, [line])
    else (.terminated, [line, "Goodbye!".data])

/-! ## Generic list lemmas used throughout -/

/-- Two booleans agreeing as propositions are equal. -/
theorem boolEqOfIff {a b : Bool} (h : a = true ↔ b = true) : a = b := by
  cases a <;> cases b <;> simp_all

/-- A takeWhile over elements that all satisfy the predicate is the whole
list. -/
theorem twAll {p : Char → Bool} : ∀ (l : Str), (∀ a ∈ l, p a = true) → l.takeWhile p = l := by
  intro l h
  induction l with
  | nil => rfl
  | cons x xs ih =>
    have hx := h x (List.mem_cons_self x xs)
    simp [List.takeWhile_cons, hx, ih fun a ha => h a (List.mem_cons_of_mem x ha)]

/-- A takeWhile stops exactly at the first failing element. -/
theorem twStop {p : Char → Bool} : ∀ (l1 : Str) (x : Char) (l2 : Str),
    (∀ a ∈ l1, p a = true) → p x = false → (l1 ++ x :: l2).takeWhile p = l1 := by
  intro l1 x l2 h hx
  induction l1 with
  | nil => simp [List.takeWhile_cons, hx]
  | cons y ys ih =>
    have hy := h y (List.mem_cons_self y ys)
    simp only [List.cons_append, List.takeWhile_cons, hy, if_true]
    simp [ih fun a ha => h a (List.mem_cons_of_mem y ha)]

/-- Membership survives takeWhile. -/
theorem memTw {p : Char → Bool} {l : Str} {a : Char} (h : a ∈ l.takeWhile p) : a ∈ l :=
  (List.takeWhile_sublist p).subset h

/-- Membership survives dropWhile. -/
theorem memDw {p : Char → Bool} {l : Str} {a : Char} (h : a ∈ l.dropWhile p) : a ∈ l :=
  (List.dropWhile_sublist p).subset h

/-- Taking an initial length plus an offset over an append. -/
theorem takeLenAppend {α : Type} : ∀ (l1 l2 : List α) (n : Nat),
    (l1 ++ l2).take (l1.length + n) = l1 ++ l2.take n := by
  intro l1
  induction l1 with
  | nil => simp
  | cons x xs ih =>
    intro l2 n
    show (x :: (xs ++ l2)).take (xs.length + 1 + n) = x :: (xs ++ l2.take n)
    have he : xs.length + 1 + n = (xs.length + n) + 1 := by omega
    rw [he, List.take_succ_cons, ih]

/-- Dropping an initial length plus an offset over an append. -/
theorem dropLenAppend {α : Type} : ∀ (l1 l2 : List α) (n : Nat),
    (l1 ++ l2).drop (l1.length + n) = l2.drop n := by
  intro l1
  induction l1 with
  | nil => simp
  | cons x xs ih =>
    intro l2 n
    show (x :: (xs ++ l2)).drop (xs.length + 1 + n) = l2.drop n
    have he : xs.length + 1 + n = (xs.length + n) + 1 := by omega
    rw [he, List.drop_succ_cons, ih]

/-! ## Sanitization lemmas -/

/-- The sanitizer is a map, so it preserves length. -/
theorem pySanitize_length (s : Str) : (pySanitize s).length = s.length := by
  simp [pySanitize]

/-- Every character of a sanitized string lies in the kept class. -/
theorem pySanitize_mem_keep {s : Str} {c : Char} (h : c ∈ pySanitize s) : keepChar c = true := by
  rcases List.mem_map.mp h with ⟨a, _, rfl⟩
  by_cases ha : keepChar a = true
  · simp [ha]
  · simp only [ha]
    simp [keepChar, isPyWordChar]

/-- On ASCII code points the kept class coincides with the set
`[A-Za-z0-9_.-]` stated by the specification. -/
theorem keepChar_eq_spec_ascii (c : Char) (h : c.toNat < 128) :
    keepChar c = specAllowedChar c := by
  apply boolEqOfIff
  simp only [keepChar, isPyWordChar, isAsciiAlnum, isAsciiAlpha, isAsciiDigit, isLatin1Alnum,
    specAllowedChar, Bool.or_eq_true, Bool.and_eq_true, decide_eq_true_eq]
  omega

/-! ## The URL path never contains a question mark -/

/-- Whatever `splitParams` returns is drawn from its input. -/
theorem splitParams_subset {c : Char} {s : Str} (h : c ∈ splitParams s) : c ∈ s := by
  unfold splitParams at h
  split at h
  · split at h
    · rcases List.mem_append.mp h with h1 | h1
      · unfold upToLastChar at h1
        exact List.mem_reverse.mp (memDw (List.mem_reverse.mp h1))
      · unfold splitBeforeChar afterLastChar at h1
        exact List.mem_reverse.mp (memTw (List.mem_reverse.mp (memTw h1)))
    · exact h
  · split at h
    · exact memTw h
    · exact h

/-- The parsed URL path contains no question mark: the query was split off
before the params. -/
theorem urlPath_no_query (url : Str) : '?' ∉ urlPath url := by
  intro h
  simp only [urlPath] at h
  have h1 := splitParams_subset h
  have h2 := List.mem_takeWhile_imp h1
  simp at h2

/-- The filename candidate (the basename of the parsed path) contains no
question mark. -/
theorem candidate_no_query (url : Str) : '?' ∉ afterLastChar '/' (urlPath url) := by
  intro h
  unfold afterLastChar at h
  exact urlPath_no_query url (List.mem_reverse.mp (memTw (List.mem_reverse.mp h)))

/-- Cutting at the first question mark does nothing to a string without
one. -/
theorem splitBefore_query_of_no_query {s : Str} (h : '?' ∉ s) :
    splitBeforeChar '?' s = s := by
  unfold splitBeforeChar
  exact twAll s fun a ha => by
    simp only [bne_iff_ne, ne_eq, decide_eq_true_eq]
    intro he
    exact h (he ▸ ha)

/-- In the valid-candidate branch the pre-sanitization filename is exactly
the basename of the parsed URL path. -/
theorem preSanitized_valid {url : Str} (now ct : Str)
    (h1 : afterLastChar '/' (urlPath url) ≠ [])
    (h2 : '.' ∈ afterLastChar '/' (urlPath url))
    (h3 : (afterLastChar '/' (urlPath url)).length ≤ 100) :
    preSanitized now url ct = afterLastChar '/' (urlPath url) := by
  simp only [preSanitized]
  rw [if_neg (by
    intro hor
    rcases hor with h | h | h
    · exact h1 h
    · exact h h2
    · omega)]
  exact splitBefore_query_of_no_query (candidate_no_query url)

/-- The pre-sanitization filename is never empty: a kept candidate is
nonempty and question-mark free, and the fallback starts with a literal
letter. -/
theorem preSanitized_ne_nil (now url ct : Str) : preSanitized now url ct ≠ [] := by
  simp only [preSanitized]
  split
  · show splitBeforeChar '?' (fallbackName now (extensionFromContentType ct)) ≠ []
    show List.takeWhile _ ('i' :: _) ≠ []
    rw [List.takeWhile_cons]
    simp
  · next hcond =>
    push_neg at hcond
    rw [splitBefore_query_of_no_query (candidate_no_query url)]
    exact hcond.1

/-- The resolved filename is never empty. -/
theorem gvf_ne_nil (now url ct : Str) : get_valid_filename now url ct ≠ [] := by
  unfold get_valid_filename
  intro h
  exact preSanitized_ne_nil now url ct (by
    have := congrArg List.length h
    rw [pySanitize_length] at this
    exact List.length_eq_zero.mp this)

/-! ## rfind? lemmas -/

/-- A character absent from a list is never found. -/
theorem rfind?_eq_none {c : Char} : ∀ {l : Str}, c ∉ l → rfind? c l = none := by
  intro l
  induction l with
  | nil => intro _; rfl
  | cons x xs ih =>
    intro h
    have hx : x ≠ c := fun he => h (he ▸ List.mem_cons_self x xs)
    have hxs : c ∉ xs := fun hm => h (List.mem_cons_of_mem x hm)
    simp [rfind?, ih hxs, hx]

/-- Finding in the right part of an append shifts by the left length. -/
theorem rfind?_append_right {c : Char} : ∀ (l1 : Str) {l2 : Str} {i : Nat},
    rfind? c l2 = some i → rfind? c (l1 ++ l2) = some (l1.length + i) := by
  intro l1
  induction l1 with
  | nil => intro l2 i h; simpa using h
  | cons x xs ih =>
    intro l2 i h
    show rfind? c (x :: (xs ++ l2)) = _
    rw [rfind?, ih h]
    simp [List.length_cons]
    omega

/-- When the right part lacks the character, finding over an append is
finding in the left part. -/
theorem rfind?_append_left {c : Char} : ∀ (l1 : Str) {l2 : Str}, c ∉ l2 →
    rfind? c (l1 ++ l2) = rfind? c l1 := by
  intro l1
  induction l1 with
  | nil => intro l2 h; simp [rfind?_eq_none h, rfind?]
  | cons x xs ih =>
    intro l2 h
    show rfind? c (x :: (xs ++ l2)) = rfind? c (x :: xs)
    rw [rfind?, rfind?, ih h]

/-- A found index is inside the list. -/
theorem rfind?_lt_length {c : Char} : ∀ {l : Str} {i : Nat},
    rfind? c l = some i → i < l.length := by
  intro l
  induction l with
  | nil => intro i h; cases h
  | cons x xs ih =>
    intro i h
    rw [rfind?] at h
    cases hr : rfind? c xs with
    | some j =>
      rw [hr] at h
      cases h
      have := ih hr
      simp [List.length_cons]
      omega
    | none =>
      rw [hr] at h
      by_cases hx : x = c
      · simp [hx] at h
        simp [← h]
      · simp [hx] at h

/-- A present character is found. -/
theorem rfind?_isSome_of_mem {c : Char} : ∀ {l : Str}, c ∈ l → ∃ i, rfind? c l = some i := by
  intro l
  induction l with
  | nil => intro h; cases h
  | cons x xs ih =>
    intro h
    rw [rfind?]
    cases hr : rfind? c xs with
    | some j => exact ⟨j + 1, rfl⟩
    | none =>
      rcases List.mem_cons.mp h with he | hm
      · exact ⟨0, by simp [he.symm]⟩
      · rcases ih hm with ⟨i, hi⟩
        rw [hi] at hr
        cases hr

/-! ## splitext lemmas -/

/-- splitext recombines to the original path. -/
theorem splitext_recombine (p : Str) : (splitext p).1 ++ (splitext p).2 = p := by
  unfold splitext
  split
  · simp
  · split <;> dsimp only [] <;> split <;> simp [List.take_append_drop]

/-- splitext over a directory prefix ending in a slash acts on the
basename only. -/
theorem splitext_concat (a : Str) {fn : Str} (hsep : '/' ∉ fn) :
    splitext (a ++ '/' :: fn) = (a ++ '/' :: (splitext fn).1, (splitext fn).2) := by
  have hsingle : rfind? '/' (['/'] : Str) = some 0 := rfl
  have hform : (a ++ '/' :: fn : Str) = (a ++ ['/']) ++ fn := by simp
  have hlen : (a ++ ['/'] : Str).length = a.length + 1 := by simp
  have hsepIdx : rfind? '/' (a ++ '/' :: fn) = some a.length := by
    rw [hform, rfind?_append_left _ hsep, rfind?_append_right a hsingle]
    simp
  by_cases hdot : '.' ∈ fn
  · rcases rfind?_isSome_of_mem hdot with ⟨d, hd⟩
    have hdotIdx : rfind? '.' (a ++ '/' :: fn) = some (a.length + 1 + d) := by
      rw [hform, rfind?_append_right _ hd, hlen]
    have hdropAll : (a ++ '/' :: fn : Str).drop (a.length + 1) = fn := by
      simp
    have htake : (a ++ '/' :: fn : Str).take (a.length + 1 + d) = a ++ '/' :: fn.take d := by
      have h0 := takeLenAppend (a ++ ['/']) fn d
      rw [hlen] at h0
      rw [hform, h0]
      simp
    have hdrop : (a ++ '/' :: fn : Str).drop (a.length + 1 + d) = fn.drop d := by
      have h0 := dropLenAppend (a ++ ['/']) fn d
      rw [hlen] at h0
      rw [hform, h0]
    have hsub : a.length + 1 + d - (a.length + 1) = d := by omega
    unfold splitext
    rw [hdotIdx, hd, hsepIdx, rfind?_eq_none hsep]
    simp only [hsub, hdropAll, Nat.le_refl, Nat.zero_le, true_and, Nat.add_le_add_iff_left,
      Nat.le_add_right, List.drop_zero, Nat.sub_zero]
    by_cases hall : (fn.take d).all (fun c => decide (c = '.')) = false
    · rw [if_pos hall, if_pos hall, htake, hdrop]
    · rw [if_neg hall, if_neg hall]
  · have hnone : rfind? '.' fn = none := rfind?_eq_none hdot
    unfold splitext
    rw [hsepIdx, hnone]
    cases hda : rfind? '.' (a ++ '/' :: fn) with
    | none => rfl
    | some d =>
      have hd2 : rfind? '.' (a ++ ['/']) = some d := by
        rw [← hda, hform, rfind?_append_left _ hdot]
      have hlt : d < a.length + 1 := by
        have := rfind?_lt_length hd2
        simpa [hlen] using this
      simp only []
      split
      · next hc => exact absurd hc.1 (Nat.not_le.mpr hlt)
      · rfl

/-! ## Decimal notation lemmas -/

/-- Proof-side recursive decimal rendering, for reasoning about
`natChars`. -/
def decChars (n : Nat) : Str :=
  if _h : n = 0 then [] else decChars (n / 10) ++ [digitCh (n % 10)]
termination_by n
decreasing_by exact Nat.div_lt_self (by omega) (by omega)

theorem decChars_zero : decChars 0 = [] := by
  unfold decChars
  rfl

theorem decChars_pos {n : Nat} (h : n ≠ 0) :
    decChars n = decChars (n / 10) ++ [digitCh (n % 10)] := by
  rw [decChars]
  simp [h]

theorem natCharsAux_eq : ∀ (fuel n : Nat) (acc : Str), n ≤ fuel →
    natCharsAux fuel n acc = decChars n ++ acc := by
  intro fuel
  induction fuel with
  | zero =>
    intro n acc h
    have h0 : n = 0 := by omega
    subst h0
    simp [natCharsAux, decChars_zero]
  | succ f ih =>
    intro n acc h
    match n with
    | 0 => simp [natCharsAux, decChars_zero]
    | m + 1 =>
      show natCharsAux f ((m + 1) / 10) (digitCh ((m + 1) % 10) :: acc) = _
      have hdiv : (m + 1) / 10 ≤ f := by
        have := Nat.div_lt_self (show 0 < m + 1 by omega) (show 1 < 10 by omega)
        omega
      rw [ih _ _ hdiv, decChars_pos (show m + 1 ≠ 0 by omega)]
      simp

theorem natChars_eq_decChars {n : Nat} (h : n ≠ 0) : natChars n = decChars n := by
  unfold natChars
  rw [if_neg h, natCharsAux_eq n n [] (Nat.le_refl n)]
  simp

/-- The value a decimal string denotes, with an accumulator. -/
def parseAcc (a : Nat) (s : Str) : Nat :=
  s.foldl (fun x c => x * 10 + (c.toNat - 48)) a

theorem digitCh_toNat {d : Nat} (h : d < 10) : (digitCh d).toNat = 48 + d := by
  interval_cases d <;> rfl

theorem parseAcc_decChars : ∀ (n a : Nat),
    parseAcc a (decChars n) = a * 10 ^ (decChars n).length + n := by
  intro n
  induction n using Nat.strong_induction_on with
  | _ n ih =>
    intro a
    by_cases h : n = 0
    · subst h
      simp [decChars_zero, parseAcc]
    · rw [decChars_pos h]
      unfold parseAcc
      rw [List.foldl_append]
      have hrec := ih (n / 10) (Nat.div_lt_self (Nat.pos_of_ne_zero h) (by omega)) a
      unfold parseAcc at hrec
      rw [hrec]
      simp only [List.foldl_cons, List.foldl_nil, List.length_append, List.length_cons,
        List.length_nil]
      rw [digitCh_toNat (Nat.mod_lt n (by omega))]
      have hmod := Nat.div_add_mod n 10
      rw [pow_succ, ← Nat.mul_assoc]
      omega

theorem parse_natChars {n : Nat} (h : n ≠ 0) : parseAcc 0 (natChars n) = n := by
  rw [natChars_eq_decChars h, parseAcc_decChars]
  simp

/-- Decimal notation is injective on the positive numbers. -/
theorem natChars_inj {a b : Nat} (ha : a ≠ 0) (hb : b ≠ 0)
    (h : natChars a = natChars b) : a = b := by
  have h1 := parse_natChars ha
  have h2 := parse_natChars hb
  rw [h] at h1
  omega

theorem natChars_ne_nil (n : Nat) : natChars n ≠ [] := by
  by_cases h : n = 0
  · subst h
    simp [natChars]
  · rw [natChars_eq_decChars h, decChars_pos h]
    simp

theorem digitCh_isDigit (d : Nat) : isAsciiDigit (digitCh d) = true := by
  unfold digitCh
  split <;> decide

theorem decChars_digits : ∀ n, ∀ c ∈ decChars n, isAsciiDigit c = true := by
  intro n
  induction n using Nat.strong_induction_on with
  | _ n ih =>
    intro c hc
    by_cases h : n = 0
    · subst h
      rw [decChars_zero] at hc
      cases hc
    · rw [decChars_pos h] at hc
      rcases List.mem_append.mp hc with h1 | h1
      · exact ih (n / 10) (Nat.div_lt_self (Nat.pos_of_ne_zero h) (by omega)) c h1
      · rw [List.mem_singleton.mp h1]
        exact digitCh_isDigit _

theorem natChars_digits (n : Nat) : ∀ c ∈ natChars n, isAsciiDigit c = true := by
  by_cases h : n = 0
  · subst h
    intro c hc
    simp [natChars] at hc
    rw [hc]
    decide
  · rw [natChars_eq_decChars h]
    exact decChars_digits n

/-! ## Collision candidate lemmas -/

/-- A numbered candidate is never the original path: it is strictly
longer. -/
theorem candPath_ne_orig (orig : Str) (k : Nat) : candPath orig k ≠ orig := by
  intro h
  have hlen := congrArg List.length h
  have hre := congrArg List.length (splitext_recombine orig)
  simp only [candPath, List.length_append, List.length_cons] at hlen hre
  have hnn : 0 < (natChars k).length := List.length_pos.mpr (natChars_ne_nil k)
  omega

/-- Distinct counters give distinct candidates. -/
theorem candPath_inj (orig : Str) {j k : Nat} (hj : j ≠ 0) (hk : k ≠ 0)
    (h : candPath orig j = candPath orig k) : j = k := by
  unfold candPath at h
  have h1 := List.append_cancel_left h
  rw [List.cons.injEq] at h1
  exact natChars_inj hj hk (List.append_cancel_right h1.2)

/-! ## Collision loop lemmas -/

/-- A free path ends the loop at once. -/
theorem collideAux_free {fuel : Nat} {fs : FS} {orig fp : Str} {c : Nat}
    (h : fsHas fs fp = false) : collideAux fuel fs orig c fp = fp := by
  cases fuel with
  | zero => rfl
  | succ f =>
    unfold collideAux
    rw [if_neg (by simp [h])]

/-- Given enough fuel, the loop lands exactly on the first free candidate. -/
theorem collideAux_first_free (fs : FS) (orig : Str) (k : Nat)
    (hfree : fsHas fs (candPath orig k) = false) :
    ∀ (fuel c : Nat) (fp : Str), fsHas fs fp = true → c ≤ k → k < c + fuel →
      (∀ j, c ≤ j → j < k → fsHas fs (candPath orig j) = true) →
      collideAux fuel fs orig c fp = candPath orig k := by
  intro fuel
  induction fuel with
  | zero =>
    intro c fp _ h2 h3 _
    omega
  | succ f ih =>
    intro c fp h1 h2 h3 h4
    unfold collideAux
    rw [if_pos (by simp [h1])]
    by_cases hck : c = k
    · subst hck
      exact collideAux_free hfree
    · exact ih (c + 1) (candPath orig c) (h4 c (Nat.le_refl c) (by omega)) (by omega) (by omega)
        (fun j hj1 hj2 => h4 j (by omega) hj2)

/-- Existence on disk is membership among the directory names. -/
theorem fsHas_iff {fs : FS} {p : Str} : fsHas fs p = true ↔ p ∈ fs.map Prod.fst := by
  simp [fsHas, List.any_eq_true, List.mem_map]

/-- First-available-candidate behaviour of the collision resolution: when
the original path and every candidate below `k` exist and candidate `k`
does not, the loop returns candidate `k`. The fuel chosen by
`resolveCollision` always suffices, because the occupied candidates are
pairwise distinct names of the directory. -/
theorem resolve_first_free (fs : FS) (orig : Str) (k : Nat)
    (h0 : fsHas fs orig = true) (hk : 1 ≤ k)
    (hocc : ∀ j, 1 ≤ j → j < k → fsHas fs (candPath orig j) = true)
    (hfree : fsHas fs (candPath orig k) = false) :
    resolveCollision fs orig = candPath orig k := by
  have hmapNodup : ((List.range' 1 (k - 1)).map (candPath orig)).Nodup := by
    apply List.Nodup.map_on
    · intro x hx y hy hxy
      rw [List.mem_range'_1] at hx hy
      exact candPath_inj orig (by omega) (by omega) hxy
    · exact List.nodup_range' 1 (k - 1)
  have hnotmem : orig ∉ (List.range' 1 (k - 1)).map (candPath orig) := by
    intro hmem
    rcases List.mem_map.mp hmem with ⟨j, _, hj⟩
    exact candPath_ne_orig orig j hj
  have hsubL : (orig :: (List.range' 1 (k - 1)).map (candPath orig)) ⊆ fs.map Prod.fst := by
    intro x hx
    rcases List.mem_cons.mp hx with rfl | hx2
    · exact fsHas_iff.mp h0
    · rcases List.mem_map.mp hx2 with ⟨j, hj, rfl⟩
      rw [List.mem_range'_1] at hj
      exact fsHas_iff.mp (hocc j (by omega) (by omega))
  have hlen := (List.subperm_of_subset (List.nodup_cons.mpr ⟨hnotmem, hmapNodup⟩) hsubL).length_le
  simp only [List.length_cons, List.length_map, List.length_range'] at hlen
  show collideAux (fs.length + 1) fs orig 1 orig = candPath orig k
  exact collideAux_first_free fs orig k hfree (fs.length + 1) 1 orig h0 hk (by omega)
    (fun j hj1 hj2 => hocc j hj1 hj2)

/-- Whatever the loop returns is the original path or a numbered
candidate. -/
theorem collideAux_shape (fs : FS) (orig : Str) :
    ∀ (fuel c : Nat) (fp : Str), 1 ≤ c →
      (fp = orig ∨ ∃ j, 1 ≤ j ∧ fp = candPath orig j) →
      (collideAux fuel fs orig c fp = orig ∨
        ∃ j, 1 ≤ j ∧ collideAux fuel fs orig c fp = candPath orig j) := by
  intro fuel
  induction fuel with
  | zero =>
    intro c fp _ hfp
    exact hfp
  | succ f ih =>
    intro c fp hc hfp
    unfold collideAux
    by_cases h : fsHas fs fp = true
    · rw [if_pos (by simp [h])]
      exact ih (c + 1) (candPath orig c) (by omega) (Or.inr ⟨c, hc, rfl⟩)
    · rw [if_neg (by simp [h])]
      exact hfp

/-! ## Chunking lemmas -/

theorem chunksAux_nil (fuel n : Nat) : chunksAux fuel n [] = [] := by
  cases fuel <;> rfl

theorem chunksAux_flatten : ∀ (fuel n : Nat) (l : List Nat), l.length ≤ fuel → 1 ≤ n →
    (chunksAux fuel n l).flatten = l := by
  intro fuel
  induction fuel with
  | zero =>
    intro n l h _
    have h0 : l = [] := List.length_eq_zero.mp (by omega)
    subst h0
    rfl
  | succ f ih =>
    intro n l h hn
    match l with
    | [] => rfl
    | x :: xs =>
      show ((x :: xs).take n :: chunksAux f n ((x :: xs).drop n)).flatten = x :: xs
      have hlen : ((x :: xs).drop n).length ≤ f := by
        simp only [List.length_drop, List.length_cons]
        simp only [List.length_cons] at h
        omega
      rw [List.flatten_cons, ih n _ hlen hn, List.take_append_drop]

theorem chunksAux_mem : ∀ (fuel n : Nat) (l c : List Nat), 1 ≤ n → c ∈ chunksAux fuel n l →
    c ≠ [] ∧ c.length ≤ n := by
  intro fuel
  induction fuel with
  | zero =>
    intro n l c _ hc
    cases hc
  | succ f ih =>
    intro n l c hn hc
    match l with
    | [] => cases hc
    | x :: xs =>
      rcases List.mem_cons.mp hc with rfl | hc2
      · constructor
        · match n with
          | m + 1 => simp [List.take_succ_cons]
        · rw [List.length_take]
          omega
      · exact ih n _ c hn hc2

theorem chunksAux_dropLast : ∀ (fuel n : Nat) (l : List Nat), l.length ≤ fuel → 1 ≤ n →
    ∀ c ∈ (chunksAux fuel n l).dropLast, c.length = n := by
  intro fuel
  induction fuel with
  | zero =>
    intro n l h _ c hc
    have h0 : l = [] := List.length_eq_zero.mp (by omega)
    subst h0
    cases hc
  | succ f ih =>
    intro n l h hn c hc
    match l with
    | [] => cases hc
    | x :: xs =>
      have hstep : chunksAux (f + 1) n (x :: xs)
          = (x :: xs).take n :: chunksAux f n ((x :: xs).drop n) := rfl
      rw [hstep] at hc
      cases hrest : chunksAux f n ((x :: xs).drop n) with
      | nil =>
        rw [hrest] at hc
        cases hc
      | cons y ys =>
        rw [hrest, List.dropLast_cons₂] at hc
        have hdne : (x :: xs).drop n ≠ [] := by
          intro hd
          rw [hd, chunksAux_nil] at hrest
          cases hrest
        have hlt : n < (x :: xs).length := by
          by_contra hge
          exact hdne (List.drop_eq_nil_of_le (by omega))
        rcases List.mem_cons.mp hc with rfl | hc2
        · rw [List.length_take]
          omega
        · have hlen : ((x :: xs).drop n).length ≤ f := by
            simp only [List.length_drop, List.length_cons]
            simp only [List.length_cons] at h
            omega
          have := ih n ((x :: xs).drop n) hlen hn c
          rw [hrest] at this
          exact this hc2

/-! ## Shape of the resolved write path -/

/-- The characters of the two splitext components come from the path. -/
theorem splitext_parts_subset {p : Str} {c : Char} :
    (c ∈ (splitext p).1 → c ∈ p) ∧ (c ∈ (splitext p).2 → c ∈ p) := by
  constructor <;> intro h <;> rw [← splitext_recombine p] <;> exact List.mem_append.mpr (by tauto)

/-- The basename-level collision candidate: the resolved filename with the
counter inserted before its extension. -/
def suffixedName (fn : Str) (j : Nat) : Str :=
  (splitext fn).1 ++ '_' :: (natChars j ++ (splitext fn).2)

/-- A suffixed name is never empty: it contains the inserted underscore. -/
theorem suffixedName_ne_nil (fn : Str) (j : Nat) : suffixedName fn j ≠ [] := by
  simp [suffixedName]

/-- A character that is neither in the filename, nor a digit, nor the
underscore, does not appear in a suffixed name. -/
theorem suffixedName_not_mem {fn : Str} {c : Char} (hcfn : c ∉ fn)
    (hcd : isAsciiDigit c = false) (hcu : c ≠ '_') (j : Nat) :
    c ∉ suffixedName fn j := by
  intro hmem
  rcases List.mem_append.mp hmem with h1 | h1
  · exact hcfn (splitext_parts_subset.1 h1)
  · rcases List.mem_cons.mp h1 with he | h2
    · exact hcu he
    · rcases List.mem_append.mp h2 with h3 | h3
      · rw [natChars_digits j _ h3] at hcd
        cases hcd
      · exact hcfn (splitext_parts_subset.2 h3)

/-- For a nonempty filename with no slash, joining never takes the
absolute-path branch. -/
theorem pyJoin_not_abs {fn : Str} (hne : fn ≠ []) (hsep : '/' ∉ fn) (dir : Str) :
    pyJoin dir fn = if dir = [] ∨ dir.getLast? = some '/' then dir ++ fn
      else dir ++ '/' :: fn := by
  unfold pyJoin
  rw [if_neg]
  intro habs
  match fn, hne with
  | x :: xs, _ =>
    rw [List.take_succ_cons] at habs
    simp at habs
    exact hsep (habs ▸ List.mem_cons_self x xs)

/-- The collision candidate built from a joined path is the join of the
directory with the suffixed filename. -/
theorem candPath_join (dir : Str) {fn : Str} (hne : fn ≠ []) (hsep : '/' ∉ fn) (j : Nat) :
    candPath (pyJoin dir fn) j = pyJoin dir (suffixedName fn j) := by
  have hsub_ne := suffixedName_ne_nil fn j
  have hsub_sep := suffixedName_not_mem hsep (by decide) (by decide) j
  rw [pyJoin_not_abs hne hsep dir, pyJoin_not_abs hsub_ne hsub_sep dir]
  by_cases hd : dir = [] ∨ dir.getLast? = some '/'
  · rw [if_pos hd, if_pos hd]
    rcases hd with hnil | hlast
    · subst hnil
      simp only [List.nil_append]
      rfl
    · have hdne : dir ≠ [] := by
        intro h0
        rw [h0] at hlast
        cases hlast
      have hgl : dir.getLast hdne = '/' := by
        have hq := List.getLast?_eq_getLast dir hdne
        rw [hq] at hlast
        exact (Option.some.injEq _ _).mp hlast
      have hdecomp : dir.dropLast ++ ['/'] = dir := by
        rw [← hgl]
        exact List.dropLast_append_getLast hdne
      have hstep : candPath (dir.dropLast ++ '/' :: fn) j
          = dir.dropLast ++ '/' :: suffixedName fn j := by
        unfold candPath suffixedName
        rw [splitext_concat _ hsep]
        simp
      calc candPath (dir ++ fn) j
          = candPath (dir.dropLast ++ '/' :: fn) j := by rw [← hdecomp]; simp
        _ = dir.dropLast ++ '/' :: suffixedName fn j := hstep
        _ = dir ++ suffixedName fn j := by rw [← hdecomp]; simp
  · rw [if_neg hd, if_neg hd]
    unfold candPath suffixedName
    rw [splitext_concat _ hsep]
    simp

/-- The path chosen by the collision loop is always the join of the
directory with the filename or with one of its suffixed variants. -/
theorem resolve_shape (dir fn : Str) (fs : FS) (hne : fn ≠ []) (hsep : '/' ∉ fn) :
    resolveCollision fs (pyJoin dir fn) = pyJoin dir fn ∨
      ∃ j, 1 ≤ j ∧ resolveCollision fs (pyJoin dir fn) = pyJoin dir (suffixedName fn j) := by
  unfold resolveCollision
  have hshape := collideAux_shape fs (pyJoin dir fn) (fs.length + 1) 1 (pyJoin dir fn)
    (Nat.le_refl 1) (Or.inl rfl)
  rcases hshape with h | ⟨j, hj, h⟩
  · exact Or.inl h
  · exact Or.inr ⟨j, hj, by rw [h, candPath_join dir hne hsep j]⟩

/-! ## Distinctness of the error messages -/

/-- Recovery of the error kind from a printed message, by inspecting
characters of the fixed prefixes. Proof-side only. -/
def classify (m : Str) : ErrKind :=
  if m.getD 0 ' ' = 'U' then .unexpected
  else if m.getD 7 ' ' = 'H' then .httpStatus
  else if m.getD 7 ' ' = 'T' then .redirects
  else if m.getD 7 ' ' = 'F' then
    (if m.getD 17 ' ' = 'd' then .requestFailure else .localFile)
  else if m.getD 18 ' ' = 't' then .timeout
  else .connectionError

theorem classify_errMsg (k : ErrKind) (e : Str) : classify (errMsg k e) = k := by
  cases k
  case timeout =>
    show classify ((errPrefix .timeout : Str) ++ []) = _
    decide
  case connectionError =>
    show classify ((errPrefix .connectionError : Str) ++ []) = _
    decide
  case redirects =>
    show classify ((errPrefix .redirects : Str) ++ []) = _
    decide
  case httpStatus =>
    show classify ((errPrefix .httpStatus : Str) ++ e) = _
    unfold classify
    rw [List.getD_append _ _ _ 0 (by decide), List.getD_append _ _ _ 7 (by decide)]
    rw [if_neg (by decide), if_pos (by decide)]
  case requestFailure =>
    show classify ((errPrefix .requestFailure : Str) ++ e) = _
    unfold classify
    rw [List.getD_append _ _ _ 0 (by decide), List.getD_append _ _ _ 7 (by decide),
      List.getD_append _ _ _ 17 (by decide)]
    rw [if_neg (by decide), if_neg (by decide), if_neg (by decide), if_pos (by decide),
      if_pos (by decide)]
  case localFile =>
    show classify ((errPrefix .localFile : Str) ++ e) = _
    unfold classify
    rw [List.getD_append _ _ _ 0 (by decide), List.getD_append _ _ _ 7 (by decide),
      List.getD_append _ _ _ 17 (by decide)]
    rw [if_neg (by decide), if_neg (by decide), if_neg (by decide), if_pos (by decide),
      if_neg (by decide)]
  case unexpected =>
    show classify ((errPrefix .unexpected : Str) ++ e) = _
    unfold classify
    rw [List.getD_append _ _ _ 0 (by decide)]
    rw [if_pos (by decide)]

/-- Messages of different kinds differ, whatever exception texts they
carry. -/
theorem errMsg_distinct {k1 k2 : ErrKind} (e1 e2 : Str) (h : k1 ≠ k2) :
    errMsg k1 e1 ≠ errMsg k2 e2 := fun he =>
  h (by rw [← classify_errMsg k1 e1, he, classify_errMsg])

/-! ## Extension synthesis lemmas -/

/-- The suffix after the last separator, when the separator occurs nowhere
to its right. -/
theorem afterLast_append {sep : Char} (xs : Str) {ys : Str} (h : sep ∉ ys) :
    afterLastChar sep (xs ++ sep :: ys) = ys := by
  unfold afterLastChar
  have hform : (xs ++ sep :: ys : Str).reverse = ys.reverse ++ sep :: xs.reverse := by
    simp
  have hall : ∀ a ∈ ys.reverse, ((a != sep) = true) := fun a ha => by
    simp only [bne_iff_ne, ne_eq, decide_eq_true_eq]
    intro he
    exact h (he ▸ List.mem_reverse.mp ha)
  rw [hform, twStop ys.reverse sep xs.reverse hall (by simp), List.reverse_reverse]

/-- Cutting before the first separator, when the prefix lacks it. -/
theorem splitBefore_stop {sep : Char} {xs : Str} (h : sep ∉ xs) (ys : Str) :
    splitBeforeChar sep (xs ++ sep :: ys) = xs := by
  unfold splitBeforeChar
  have hall : ∀ a ∈ xs, ((a != sep) = true) := fun a ha => by
    simp only [bne_iff_ne, ne_eq, decide_eq_true_eq]
    intro he
    exact h (he ▸ ha)
  exact twStop xs sep ys hall (by simp)

/-- Cutting before an absent separator does nothing. -/
theorem splitBefore_no_sep {sep : Char} {xs : Str} (h : sep ∉ xs) :
    splitBeforeChar sep xs = xs := by
  unfold splitBeforeChar
  exact twAll xs fun a ha => by
    simp only [bne_iff_ne, ne_eq, decide_eq_true_eq]
    intro he
    exact h (he ▸ ha)

/-- The synthesized extension for a content type of the shape
`type/subtype[;params]`, with the subtype a clean token and the parameter
section free of slashes. -/
theorem extension_spec (t s r : Str) (hs2 : '/' ∉ s)
    (hs3 : ';' ∉ s) (hs4 : pyStrip s = s) (hr : r = [] ∨ ∃ r2, r = ';' :: r2)
    (hr2 : '/' ∉ r) :
    extensionFromContentType (t ++ '/' :: (s ++ r)) = s := by
  unfold extensionFromContentType
  rw [if_pos ⟨by simp, by simp⟩]
  have hafter : afterLastChar '/' (t ++ '/' :: (s ++ r)) = s ++ r := afterLast_append t (by
    intro hm
    rcases List.mem_append.mp hm with h1 | h1
    exacts [hs2 h1, hr2 h1])
  rw [hafter]
  rcases hr with rfl | ⟨r2, rfl⟩
  · rw [List.append_nil, splitBefore_no_sep hs3, hs4]
  · rw [splitBefore_stop hs3 r2, hs4]

/-- The filename resolver never lets a path separator through. -/
theorem gvf_no_sep (now url ct : Str) :
    '/' ∉ get_valid_filename now url ct ∧ '\\' ∉ get_valid_filename now url ct := by
  unfold get_valid_filename
  constructor <;> intro h <;> exact absurd (pySanitize_mem_keep h) (by decide)

/-! ## The claims -/

/-- C1, counterexample: the sanitizer of the filename resolver keeps the
non-ASCII word character 233 (the accented letter in "café.jpg", matched
by the Python class `\w`), so the returned filename is not confined to
`[A-Za-z0-9_.-]` as the claim states. -/
theorem c1_counterexample :
    ('é' ∈ get_valid_filename "20240101_120000".data
        "http://example.com/café.jpg".data "image/jpeg".data) ∧
    specAllowedChar 'é' = false := by decide

/-- C1, amended: the sanitization step replaces every character that is
not a Python word character (`\w`, which also matches non-ASCII letters
and digits), hyphen or period with an underscore, so every character of
the returned filename lies in that kept class; restricted to ASCII, the
kept class coincides with the specified set `[A-Za-z0-9_.-]`; the
replacement preserves the length. -/
theorem c1_sanitizer_class :
    (∀ s : Str, ∀ c ∈ pySanitize s, keepChar c = true) ∧
    (∀ c : Char, c.toNat < 128 → keepChar c = specAllowedChar c) ∧
    (∀ s : Str, (pySanitize s).length = s.length) :=
  ⟨fun _ _ hc => pySanitize_mem_keep hc, keepChar_eq_spec_ascii, pySanitize_length⟩

/-- C1, witness: the amended statement at concrete inputs. -/
theorem c1_witness :
    keepChar 'a' = true ∧ keepChar '/' = specAllowedChar '/' :=
  ⟨c1_sanitizer_class.1 ['a'] 'a' (by decide), c1_sanitizer_class.2.1 '/' (by decide)⟩

/-- C2, counterexample: the fetcher opens with mode `wb`
(src/week6.py:92), which succeeds even on a path that already exists, so
the open is not exclusive-create (an exclusive-create mode would fail
there). -/
theorem c2_counterexample :
    fsHas [("Fetched_Images/cat.jpg".data, [1])] ("Fetched_Images/cat.jpg".data) = true ∧
    (openForWrite downloadOpenMode [("Fetched_Images/cat.jpg".data, [1])]
        ("Fetched_Images/cat.jpg".data)).isSome = true := by decide

/-- C2, amended: the target path is opened with the truncating binary
write mode `wb`, which never fails, existing file or not; the body is
streamed in chunks of 8192 bytes — every chunk nonempty and at most 8192
bytes, every chunk before the last exactly 8192 — and the written bytes
are exactly the body. -/
theorem c2_streaming :
    (∀ (fs : FS) (p : Str), (openForWrite downloadOpenMode fs p).isSome = true) ∧
    (∀ body : List Nat, writtenContent body = body) ∧
    (∀ body : List Nat, ∀ c ∈ chunks chunkSize body, c ≠ [] ∧ c.length ≤ chunkSize) ∧
    (∀ body : List Nat, ∀ c ∈ (chunks chunkSize body).dropLast, c.length = chunkSize) := by
  refine ⟨fun fs p => rfl, ?_, ?_, ?_⟩
  · intro body
    unfold writtenContent chunks chunkSize
    rw [List.filter_eq_self.mpr ?hall]
    · exact chunksAux_flatten body.length 8192 body (Nat.le_refl _) (by omega)
    case hall =>
      intro c hc
      have hne := (chunksAux_mem body.length 8192 body c (by omega) hc).1
      match c, hne with
      | x :: xs, _ => rfl
  · intro body c hc
    unfold chunks chunkSize at hc
    exact chunksAux_mem body.length 8192 body c (by omega) hc
  · intro body c hc
    unfold chunks chunkSize at hc
    exact chunksAux_dropLast body.length 8192 body (Nat.le_refl _) (by omega) c hc

/-- C2, witness: the amended statement at concrete inputs. -/
theorem c2_witness :
    (openForWrite downloadOpenMode [] ("a".data)).isSome = true ∧
    writtenContent [7, 8] = [7, 8] ∧ [7, 8].length ≤ chunkSize :=
  ⟨c2_streaming.1 [] ("a".data), c2_streaming.2.1 [7, 8],
    (c2_streaming.2.2.1 [7, 8] [7, 8] (by decide)).2⟩

/-- C3, counterexample: with `cat.jpg` and `cat_2.jpg` on disk — the state
left behind once `cat_1.jpg`, handed out by an earlier identical request
(second conjunct), has been freed — the probe hands out `cat_1.jpg`
again: a freed name is reused, against the claim. -/
theorem c3_counterexample :
    resolveCollision [("Fetched_Images/cat_2.jpg".data, []), ("Fetched_Images/cat.jpg".data, [])]
        ("Fetched_Images/cat.jpg".data) = "Fetched_Images/cat_1.jpg".data ∧
    resolveCollision [("Fetched_Images/cat.jpg".data, [])] ("Fetched_Images/cat.jpg".data)
        = "Fetched_Images/cat_1.jpg".data := by decide

/-- C3, amended: when the resolved path is free it is used unchanged;
otherwise the chosen path is the candidate with the suffix `_k` inserted
before the extension, `k` the first available integer starting at 1. The
probe consults only current existence, so a name freed in the meantime is
reused when its index is the first available (no strictly-increasing
guarantee across requests once names are freed). -/
theorem c3_first_available :
    (∀ (fs : FS) (orig : Str), fsHas fs orig = false → resolveCollision fs orig = orig) ∧
    (∀ (fs : FS) (orig : Str) (k : Nat), fsHas fs orig = true → 1 ≤ k →
      (∀ j, 1 ≤ j → j < k → fsHas fs (candPath orig j) = true) →
      fsHas fs (candPath orig k) = false →
      resolveCollision fs orig = candPath orig k) :=
  ⟨fun _ _ h => collideAux_free h,
   fun fs orig k h0 hk hocc hfree => resolve_first_free fs orig k h0 hk hocc hfree⟩

/-- C3, witness: the amended statement at concrete directories. -/
theorem c3_witness :
    resolveCollision [] ("d/cat.jpg".data) = "d/cat.jpg".data ∧
    resolveCollision [("d/cat_1.jpg".data, []), ("d/cat.jpg".data, [])] ("d/cat.jpg".data)
      = candPath ("d/cat.jpg".data) 2 :=
  ⟨c3_first_available.1 [] _ (by decide),
   c3_first_available.2 _ _ 2 (by decide) (by decide)
     (fun j hj1 hj2 => by
       have hj : j = 1 := by omega
       subst hj
       decide)
     (by decide)⟩

/-- C4, counterexample: for the content type `image/png;v=a/b` — of the
form `type/subtype[;params]` with subtype `png` — the synthesized
extension is `b`, not `png`: the code cuts at the last slash, which may
lie inside the parameter section. -/
theorem c4_counterexample :
    extensionFromContentType ("image/png;v=a/b".data) = "b".data ∧
    decide ("png".data = "b".data) = false := by decide

/-- C4, amended: for a content type `type/subtype[;params]` whose
parameter section contains no slash and whose subtype is a clean token
(nonempty, no slash, no semicolon, no surrounding whitespace), the
synthesized fallback extension is exactly the subtype, case preserved as
given to the resolver; an empty or slash-free content type yields
`bin`. -/
theorem c4_extension :
    (∀ t s r : Str, s ≠ [] → '/' ∉ s → ';' ∉ s → pyStrip s = s →
      (r = [] ∨ ∃ r2, r = ';' :: r2) → '/' ∉ r →
      extensionFromContentType (t ++ '/' :: (s ++ r)) = s) ∧
    extensionFromContentType [] = "bin".data ∧
    (∀ ct : Str, '/' ∉ ct → extensionFromContentType ct = "bin".data) := by
  refine ⟨fun t s r _ hs2 hs3 hs4 hr hr2 => extension_spec t s r hs2 hs3 hs4 hr hr2, rfl, ?_⟩
  intro ct h
  unfold extensionFromContentType
  rw [if_neg]
  intro hc
  have hmem : '/' ∈ ct := by simpa using hc.2
  exact h hmem

/-- C4, witness: the amended statement at concrete content types. -/
theorem c4_witness :
    extensionFromContentType ("image".data ++ '/' :: ("jpeg".data ++ ";charset=utf-8".data))
      = "jpeg".data ∧
    extensionFromContentType ("imagejpeg".data) = "bin".data :=
  ⟨c4_extension.1 "image".data "jpeg".data (";charset=utf-8".data) (by decide) (by decide)
     (by decide) (by decide) (Or.inr ⟨"charset=utf-8".data, rfl⟩) (by decide),
   c4_extension.2.2 "imagejpeg".data (by decide)⟩

/-- C5: for a response whose content type (lowercased at src/week6.py:65)
does not start with `image/`, an answer to the confirmation prompt other
than an affirmative `y` (compared case-insensitively) makes the fetcher
return `None` and leaves the directory untouched. -/
theorem c5_decline_no_write (url dir ua nw : Str) (wf : Option Str) (fs : FS)
    (r : HttpResponse) (hst : r.statusCode < 400)
    (hct : pyStartswith "image/".data (pyLower r.contentTypeHeader) = false)
    (hans : pyLower ua ≠ "y".data) :
    (download_image url dir ⟨.ok r, ua, nw, wf⟩ fs).result = none ∧
    (download_image url dir ⟨.ok r, ua, nw, wf⟩ fs).fs = fs := by
  simp only [download_image]
  rw [if_neg (by omega), if_pos ⟨hct, hans⟩]
  exact ⟨rfl, rfl⟩

/-- C5, witness: a declined non-image download at concrete inputs. -/
theorem c5_witness :
    (download_image "http://example.com/page".data "Fetched_Images".data
        ⟨.ok ⟨200, [], "text/html".data, [1, 2]⟩, "N".data, "20240101_120000".data, none⟩
        []).result = none ∧
    (download_image "http://example.com/page".data "Fetched_Images".data
        ⟨.ok ⟨200, [], "text/html".data, [1, 2]⟩, "N".data, "20240101_120000".data, none⟩
        []).fs = [] :=
  c5_decline_no_write _ _ _ _ _ _ _ (by decide) (by decide) (by decide)

/-- C6: every non-fatal error of the taxonomy is caught at the fetcher
boundary: the attempt returns `None`, leaves the directory untouched, and
prints exactly one connection line followed by the one message of its
kind (so nothing is retried); messages of distinct kinds are distinct;
and the interactive loop treats a failed attempt like any other outcome,
remaining in its prompting state when the user continues, rather than the
program terminating on the error. -/
theorem c6_error_taxonomy :
    (∀ url dir ua nw wf fs, download_image url dir ⟨.timeout, ua, nw, wf⟩ fs
        = ⟨none, fs, [connectingMsg url, errMsg .timeout []]⟩) ∧
    (∀ url dir ua nw wf fs, download_image url dir ⟨.connectionError, ua, nw, wf⟩ fs
        = ⟨none, fs, [connectingMsg url, errMsg .connectionError []]⟩) ∧
    (∀ url dir ua nw wf fs, download_image url dir ⟨.tooManyRedirects, ua, nw, wf⟩ fs
        = ⟨none, fs, [connectingMsg url, errMsg .redirects []]⟩) ∧
    (∀ url dir ua nw wf fs e, download_image url dir ⟨.otherRequestError e, ua, nw, wf⟩ fs
        = ⟨none, fs, [connectingMsg url, errMsg .requestFailure e]⟩) ∧
    (∀ url dir ua nw wf fs e, download_image url dir ⟨.unexpectedExc e, ua, nw, wf⟩ fs
        = ⟨none, fs, [connectingMsg url, errMsg .unexpected e]⟩) ∧
    (∀ url dir ua nw wf fs r, 400 ≤ r.statusCode → r.statusCode < 600 →
      download_image url dir ⟨.ok r, ua, nw, wf⟩ fs
        = ⟨none, fs, [connectingMsg url, errMsg .httpStatus r.httpErrorText]⟩) ∧
    (∀ url dir ua nw fs r e, r.statusCode < 400 →
      pyStartswith "image/".data (pyLower r.contentTypeHeader) = true →
      download_image url dir ⟨.ok r, ua, nw, some e⟩ fs
        = ⟨none, fs, [connectingMsg url,
            downloadingMsg (resolveCollision fs
              (pyJoin dir (get_valid_filename nw url (pyLower r.contentTypeHeader)))),
            errMsg .localFile e]⟩) ∧
    (∀ (k1 k2 : ErrKind) (e1 e2 : Str), k1 ≠ k2 → errMsg k1 e1 ≠ errMsg k2 e2) ∧
    (∀ rawUrl ans, pyLower (pyStrip rawUrl) ∉ quitWords → pyStrip rawUrl ≠ [] →
      ((mainStep rawUrl none ans).1 = (mainStep rawUrl (some (pyStrip rawUrl)) ans).1 ∧
       (pyLower ans = "y".data → (mainStep rawUrl none ans).1 = .prompting) ∧
       (mainStep rawUrl none ans).2.head? = some ("✗ Download failed.".data))) := by
  refine ⟨fun _ _ _ _ _ _ => rfl, fun _ _ _ _ _ _ => rfl, fun _ _ _ _ _ _ => rfl,
    fun _ _ _ _ _ _ _ => rfl, fun _ _ _ _ _ _ _ => rfl, ?_, ?_,
    fun _ _ e1 e2 h => errMsg_distinct e1 e2 h, ?_⟩
  · intro url dir ua nw wf fs r h1 h2
    simp only [download_image]
    rw [if_pos ⟨h1, h2⟩]
  · intro url dir ua nw fs r e h1 h2
    simp only [download_image]
    rw [if_neg (by omega), h2]
    simp
  · intro rawUrl ans hq hne
    simp only [mainStep]
    rw [if_neg hq, if_neg hne, if_neg hq, if_neg hne]
    refine ⟨?_, fun hy => ?_, ?_⟩
    · by_cases hy : pyLower ans = "y".data
      · rw [if_pos hy, if_pos hy]
      · rw [if_neg hy, if_neg hy]
    · rw [if_pos hy]
    · by_cases hy : pyLower ans = "y".data
      · rw [if_pos hy]
        rfl
      · rw [if_neg hy]
        rfl

/-- C6, witness: a timed-out attempt, distinct messages, and a continuing
loop, at concrete inputs. -/
theorem c6_witness :
    download_image ("http://example.com/a.jpg".data) ("Fetched_Images".data)
        ⟨.timeout, [], "20240101_120000".data, none⟩ []
      = ⟨none, [], [connectingMsg "http://example.com/a.jpg".data, errMsg .timeout []]⟩ ∧
    errMsg .timeout [] ≠ errMsg .connectionError [] ∧
    (mainStep "http://example.com/a.jpg".data none "y".data).1 = .prompting :=
  ⟨c6_error_taxonomy.1 _ _ _ _ _ _,
   c6_error_taxonomy.2.2.2.2.2.2.2.1 .timeout .connectionError [] [] (by decide),
   (c6_error_taxonomy.2.2.2.2.2.2.2.2 "http://example.com/a.jpg".data "y".data
     (by decide) (by decide)).2.1 (by decide)⟩

/-- C7: for a URL whose path ends in a nonempty final segment that has a
period and at most 100 characters, the resolver keeps that segment: before
sanitization the filename is the segment with any text from a `?` on
removed, and the timestamp fallback is not taken (the result does not
depend on the timestamp or the content type). -/
theorem c7_presanitized (now url ct : Str)
    (h1 : afterLastChar '/' (urlPath url) ≠ [])
    (h2 : '.' ∈ afterLastChar '/' (urlPath url))
    (h3 : (afterLastChar '/' (urlPath url)).length ≤ 100) :
    preSanitized now url ct = splitBeforeChar '?' (afterLastChar '/' (urlPath url)) ∧
    (∀ now2 ct2, preSanitized now2 url ct2 = preSanitized now url ct) := by
  have hv := preSanitized_valid now ct h1 h2 h3
  refine ⟨?_, fun now2 ct2 => ?_⟩
  · rw [hv, splitBefore_query_of_no_query (candidate_no_query url)]
  · rw [hv, preSanitized_valid now2 ct2 h1 h2 h3]

/-- C7, witness: the pre-sanitization filename of a concrete URL. -/
theorem c7_witness :
    preSanitized "20240101_120000".data "https://example.com/pics/cat.jpg".data
        "image/jpeg".data
      = splitBeforeChar '?'
          (afterLastChar '/' (urlPath "https://example.com/pics/cat.jpg".data)) :=
  (c7_presanitized "20240101_120000".data "https://example.com/pics/cat.jpg".data
    "image/jpeg".data (by decide) (by decide) (by decide)).1

/-- C8: for every URL, content type and timestamp, the resolver returns a
nonempty filename. -/
theorem c8_nonempty (now url ct : Str) : 0 < (get_valid_filename now url ct).length :=
  List.length_pos.mpr (gvf_ne_nil now url ct)

/-- Sanitization fixes its own output pointwise: a kept character stays,
and the underscore that replaces a dropped character is itself kept. -/
theorem sanitize_fix (c : Char) :
    (if keepChar (if keepChar c then c else '_') then (if keepChar c then c else '_') else '_')
      = (if keepChar c then c else '_') := by
  by_cases h : keepChar c = true
  · simp [h]
  · simp [h]

/-- C9: the character-replacement step is idempotent. -/
theorem c9_sanitize_idempotent (s : Str) : pySanitize (pySanitize s) = pySanitize s := by
  unfold pySanitize
  rw [List.map_map]
  exact List.map_congr_left fun a _ => sanitize_fix a

/-- C10: the resolver output contains no slash and no backslash, and the
path the fetcher writes to is always the join of the output directory
with the resolved filename, possibly carrying a numeric suffix before its
extension — it never escapes the output directory. -/
theorem c10_no_escape :
    (∀ now url ct, '/' ∉ get_valid_filename now url ct ∧ '\\' ∉ get_valid_filename now url ct) ∧
    (∀ (dir : Str) (fs : FS) (now url ct : Str),
      resolveCollision fs (pyJoin dir (get_valid_filename now url ct))
          = pyJoin dir (get_valid_filename now url ct) ∨
      ∃ j, 1 ≤ j ∧
        resolveCollision fs (pyJoin dir (get_valid_filename now url ct))
          = pyJoin dir (suffixedName (get_valid_filename now url ct) j)) :=
  ⟨gvf_no_sep, fun dir fs now url ct =>
    resolve_shape dir _ fs (gvf_ne_nil now url ct) (gvf_no_sep now url ct).1⟩

/-- C10, witness: the chosen path at concrete inputs is a join with the
resolved filename or a suffixed variant. -/
theorem c10_witness :
    resolveCollision [] (pyJoin "Fetched_Images".data
        (get_valid_filename "20240101_120000".data
          "https://example.com/pics/cat.jpg".data "image/jpeg".data))
      = pyJoin "Fetched_Images".data (get_valid_filename "20240101_120000".data
          "https://example.com/pics/cat.jpg".data "image/jpeg".data) ∨
    ∃ j, 1 ≤ j ∧
      resolveCollision [] (pyJoin "Fetched_Images".data
          (get_valid_filename "20240101_120000".data
            "https://example.com/pics/cat.jpg".data "image/jpeg".data))
        = pyJoin "Fetched_Images".data
            (suffixedName (get_valid_filename "20240101_120000".data
              "https://example.com/pics/cat.jpg".data "image/jpeg".data) j) :=
  c10_no_escape.2 "Fetched_Images".data [] "20240101_120000".data
    "https://example.com/pics/cat.jpg".data "image/jpeg".data

end Week6
